import Mathlib

/-
  Shallow embedding of the C4-Studio annotation editor (src/App.tsx and
  src/services/geminiService.ts).

  The overlay canvas is modelled as an abstract raster: the list of draw
  operations painted since the last full clear, oldest first.  `clearRect`
  over the whole canvas yields the empty raster, `getImageData` captures the
  current raster, and `putImageData` of a full-canvas snapshot replaces the
  raster wholesale (so the source's clear-then-put repaint collapses to
  replacement, which is exactly the "never blended" guarantee).
  React state updates that the source performs through setters are modelled
  as functional record updates, in the order the imperative code performs
  the corresponding reads and writes.
  Mouse coordinates and layer opacities are JS numbers; they are modelled as
  exact rationals.
-/

namespace C4Studio

/-- One drawing operation painted onto the overlay canvas.  The text tool is
the only operation whose pixel result a claim inspects; all other strokes
enter the model only as opaque raster snapshots. -/
inductive DrawOp where
  | text (content : String) (x y : ℚ) (brushSize : Nat) (color : String)
  deriving DecidableEq, Repr

/-- A full-canvas pixel buffer (the `ImageData` of the source), abstracted as
the list of operations painted since the last clear. -/
abbrev Raster := List DrawOp

/-- Layer.type from src/types.ts. -/
inductive LayerType where
  | image
  | generation
  | segment
  deriving DecidableEq, Repr

/-- Layer from src/types.ts. -/
structure Layer where
  id : String
  type : LayerType
  name : String
  url : String
  visible : Bool
  opacity : ℚ
  deriving DecidableEq, Repr

/-- The text-input overlay state (`textInput` in App.tsx). -/
structure TextInputState where
  x : ℚ
  y : ℚ
  visible : Bool
  deriving DecidableEq, Repr

/-- The drawing tool (`annotationTool` in App.tsx). -/
inductive Tool where
  | cursor
  | brush
  | rect
  | arrow
  | eraser
  | text
  deriving DecidableEq, Repr

/-- The App component state relevant to annotation, history and layers. -/
structure AppState where
  layers : List Layer
  activeLayerId : Option String
  annotationTool : Tool
  brushColor : String
  brushSize : Nat
  isDrawing : Bool
  startPos : Option (ℚ × ℚ)
  snapshot : Option Raster
  history : List Raster
  historyStep : Int
  textInput : TextInputState
  textValue : String
  canvas : Raster
  deriving DecidableEq, Repr

/-- The initial state of the App component. -/
def initialState : AppState where
  layers := []
  activeLayerId := none
  annotationTool := Tool.cursor
  brushColor := "#8b5cf6"
  brushSize := 4
  isDrawing := false
  startPos := none
  snapshot := none
  history := []
  historyStep := -1
  textInput := ⟨0, 0, false⟩
  textValue := ""
  canvas := []

/-- JavaScript `Array.prototype.slice(0, e)`: a negative end index counts
from the end of the array, and the result is the kept initial segment. -/
def jsSlice (l : List α) (e : Int) : List α :=
  l.take (if 0 ≤ e then e.toNat else ((l.length : Int) + e).toNat)

/-- App.tsx `saveHistory` (lines 164-181): capture the canvas, truncate the
history after the cursor, append, evict the oldest entry when the length
exceeds 20, and point the cursor at the new last index. -/
def saveHistory (s : AppState) : AppState :=
  let data := s.canvas
  let h1 := jsSlice s.history (s.historyStep + 1) ++ [data]
  let h2 := if 20 < h1.length then h1.drop 1 else h1
  { s with history := h2, historyStep := (h2.length : Int) - 1 }

/-- App.tsx `handleUndo` (lines 183-200).  In the source the repaint is a
`clearRect` of the whole canvas followed by `putImageData` of the stored
full-canvas snapshot, which in the raster model is replacement by the
snapshot; the `if (history[newStep])` guard is a presence check on the
array slot. -/
def handleUndo (s : AppState) : AppState :=
  if 0 < s.historyStep then
    match s.history[(s.historyStep - 1).toNat]? with
    | some d => { s with historyStep := s.historyStep - 1, canvas := d }
    | none => { s with historyStep := s.historyStep - 1 }
  else if s.historyStep = 0 then
    { s with historyStep := -1, canvas := [] }
  else s

/-- App.tsx `handleRedo` (lines 202-213). -/
def handleRedo (s : AppState) : AppState :=
  if s.historyStep < (s.history.length : Int) - 1 then
    match s.history[(s.historyStep + 1).toNat]? with
    | some d => { s with historyStep := s.historyStep + 1, canvas := d }
    | none => { s with historyStep := s.historyStep + 1 }
  else s

/-- App.tsx `handleDeleteLayer` (lines 62-79): filter the layer out, move the
active-layer selection if it pointed at the deleted layer, and, when the
deleted layer is the annotation overlay, reset the history and clear the
canvas. -/
def handleDeleteLayer (id : String) (s : AppState) : AppState :=
  let filtered := s.layers.filter (fun l => l.id ≠ id)
  let s1 := { s with
    layers := filtered,
    activeLayerId :=
      if s.activeLayerId = some id then filtered.head?.map (fun l => l.id)
      else s.activeLayerId }
  if id = "annotations-layer" then
    { s1 with history := [], historyStep := -1, canvas := [] }
  else s1

/-- App.tsx `ensureAnnotationLayer` (lines 82-99): create the singleton
annotation-overlay layer at the front of the list if it is missing, or
unhide it if it is hidden, making it active in either case. -/
def ensureAnnotationLayer (s : AppState) : AppState :=
  match s.layers.find? (fun l => l.id == "annotations-layer") with
  | none =>
      let newLayer : Layer :=
        { id := "annotations-layer", type := LayerType.segment,
          name := "Annotations", url := "", visible := true, opacity := 1 }
      { s with layers := newLayer :: s.layers, activeLayerId := some newLayer.id }
  | some existing =>
      if !existing.visible then
        { s with
          layers := s.layers.map (fun l =>
            if l.id == existing.id then { l with visible := true } else l),
          activeLayerId := some existing.id }
      else s

/-- App.tsx `commitText` (lines 336-359): a hidden input is a no-op; a
whitespace-only buffer only closes the edit; otherwise the text is painted
once with the current color and brush-scaled font, one history snapshot is
taken, and the edit session is closed with an emptied buffer. -/
def commitText (s : AppState) : AppState :=
  if !s.textInput.visible then s
  else
    let text := s.textValue
    if text.data.all Char.isWhitespace then
      { s with textInput := { s.textInput with visible := false } }
    else
      let s1 := { s with canvas :=
        s.canvas ++ [DrawOp.text text s.textInput.x s.textInput.y s.brushSize s.brushColor] }
      let s2 := saveHistory s1
      { s2 with textValue := "", textInput := { s2.textInput with visible := false } }

/-- The tail of App.tsx `startDrawing` (lines 234-272), after the pending-text
handling: ensure the overlay layer, start the session at the press point;
the text tool instead opens a fresh empty text edit there (and is not a
drawing session), and the shape tools capture the pre-stroke snapshot.
The path and stroke-style set-up (`beginPath`, `moveTo`, `strokeStyle`,
compositing mode) paints no pixels and so does not change the raster.
`ensureAnnotationLayer` only touches the layer list and the active id, so
the tool tests read the pressed tool directly. -/
def beginSession (x y : ℚ) (s : AppState) : AppState :=
  if s.annotationTool = Tool.text then
    { ensureAnnotationLayer s with
      isDrawing := false, startPos := some (x, y),
      textValue := "", textInput := ⟨x, y, true⟩ }
  else if s.annotationTool = Tool.rect ∨ s.annotationTool = Tool.arrow then
    { ensureAnnotationLayer s with
      isDrawing := true, startPos := some (x, y),
      snapshot := some (ensureAnnotationLayer s).canvas }
  else
    { ensureAnnotationLayer s with isDrawing := true, startPos := some (x, y) }

/-- App.tsx `startDrawing` (lines 224-272): the cursor tool ignores the
press; a visible text edit is committed first, and when the active tool is
the text tool the press then returns without opening a session. -/
def startDrawing (x y : ℚ) (s : AppState) : AppState :=
  if s.annotationTool = Tool.cursor then s
  else if s.textInput.visible then
    if (commitText s).annotationTool = Tool.text then commitText s
    else beginSession x y (commitText s)
  else beginSession x y s

/-- The outcome of App.tsx `handleExport`: an error toast with no download,
a plain download of the base layer, or a composite of the base layer with
the annotation canvas. -/
inductive ExportResult where
  | error (msg : String)
  | simple (layer : Layer)
  | annotated (layer : Layer)
  deriving DecidableEq, Repr

/-- The base-layer choice of App.tsx `handleExport` (lines 425-426): the
layer matching `activeLayerId` that is not the overlay, or else the first
visible layer whose type is not segment. -/
def exportBaseLayer (s : AppState) : Option Layer :=
  match s.layers.find? (fun l =>
      (s.activeLayerId == some l.id) && (l.id != "annotations-layer")) with
  | some l => some l
  | none => s.layers.find? (fun l => (l.type != LayerType.segment) && l.visible)

/-- App.tsx `handleExport` (lines 423-474), up to the raster compositing:
no eligible base layer is an error toast and no output; otherwise the
export is annotated exactly when the overlay layer exists, is visible, and
the history cursor is at least 0. -/
def handleExport (s : AppState) : ExportResult :=
  match exportBaseLayer s with
  | none => ExportResult.error "No valid image layer to export"
  | some l =>
      let overlayVisible :=
        match s.layers.find? (fun l => l.id == "annotations-layer") with
        | some a => a.visible
        | none => false
      if overlayVisible && (0 ≤ s.historyStep : Bool) then ExportResult.annotated l
      else ExportResult.simple l

/-- geminiService.ts `editImage` (line 76): the anchored regular expression
`^data:image\/(png|jpeg|webp);base64,`, spelled out as the three literal
prefixes it can match. -/
def dataUriPrefixes : List String :=
  ["data:image/png;base64,", "data:image/jpeg;base64,", "data:image/webp;base64,"]

/-- geminiService.ts `editImage` (line 76): strip the matched data-URI
header, if any, from the source-image string before submission. -/
def cleanBase64 (s : String) : String :=
  match dataUriPrefixes.find? (fun p => p.data.isPrefixOf s.data) with
  | some p => ⟨s.data.drop p.data.length⟩
  | none => s

/-- The geometry produced by App.tsx `drawArrow`: the stroked shaft segment
and the two back vertices of the filled arrowhead triangle (its apex is the
shaft endpoint itself). -/
structure ArrowRender where
  shaft : (ℝ × ℝ) × (ℝ × ℝ)
  head1 : ℝ × ℝ
  head2 : ℝ × ℝ

/-- App.tsx `drawArrow` (line 317): the arrowhead length is the base 15
plus the current brush size. -/
def arrowHeadLength (brushSize : ℝ) : ℝ := 15 + brushSize

/-- App.tsx `drawArrow` (lines 316-334).  `Math.atan2 dy dx` is the argument
of the complex number `dx + dy*I`. -/
noncomputable def drawArrow (brushSize fromX fromY toX toY : ℝ) : ArrowRender :=
  let headLength := arrowHeadLength brushSize
  let dx := toX - fromX
  let dy := toY - fromY
  let angle := Complex.arg ⟨dx, dy⟩
  { shaft := ((fromX, fromY), (toX, toY)),
    head1 := (toX - headLength * Real.cos (angle - Real.pi / 6),
              toY - headLength * Real.sin (angle - Real.pi / 6)),
    head2 := (toX - headLength * Real.cos (angle + Real.pi / 6),
              toY - headLength * Real.sin (angle + Real.pi / 6)) }

/-- Euclidean distance in the canvas plane. -/
noncomputable def eucDist (p q : ℝ × ℝ) : ℝ :=
  Real.sqrt ((p.1 - q.1) ^ 2 + (p.2 - q.2) ^ 2)

/-! ### Helper lemmas about the history engine -/

lemma saveHistory_history (s : AppState) (h1 : -1 ≤ s.historyStep) :
    (saveHistory s).history =
      if (s.history.take (s.historyStep + 1).toNat).length + 1 ≤ 20 then
        s.history.take (s.historyStep + 1).toNat ++ [s.canvas]
      else (s.history.take (s.historyStep + 1).toNat ++ [s.canvas]).drop 1 := by
  have h0 : 0 ≤ s.historyStep + 1 := by omega
  have hlen : (s.history.take (s.historyStep + 1).toNat ++ [s.canvas]).length
      = (s.history.take (s.historyStep + 1).toNat).length + 1 := by simp
  simp only [saveHistory, jsSlice, if_pos h0, hlen]
  split_ifs <;> first | rfl | omega

lemma saveHistory_historyStep (s : AppState) :
    (saveHistory s).historyStep = ((saveHistory s).history.length : Int) - 1 := by
  simp [saveHistory]

lemma saveHistory_length_le (s : AppState) (h1 : -1 ≤ s.historyStep)
    (h2 : s.history.length ≤ 20) : (saveHistory s).history.length ≤ 20 := by
  rw [saveHistory_history s h1]
  have htake : (s.history.take (s.historyStep + 1).toNat).length ≤ s.history.length :=
    by simp
  split_ifs with h
  · simpa using h
  · simp only [List.length_drop, List.length_append, List.length_cons, List.length_nil]
    omega

lemma saveHistory_canvas (s : AppState) : (saveHistory s).canvas = s.canvas := rfl

lemma saveHistory_layers (s : AppState) : (saveHistory s).layers = s.layers := rfl

lemma saveHistory_textInput (s : AppState) : (saveHistory s).textInput = s.textInput := rfl

/-! ### C1 -/

/-- C1: for any state whose cursor is at least -1 and whose history holds at
most 20 entries, `saveHistory` keeps exactly the entries up to the cursor,
appends the captured snapshot, evicts exactly the oldest entry when the
result would exceed 20 entries, leaves the history at no more than 20
entries, and points the cursor at the new last index. -/
theorem saveHistory_spec (s : AppState) (h1 : -1 ≤ s.historyStep)
    (h2 : s.history.length ≤ 20) :
    (saveHistory s).history =
      (if (s.history.take (s.historyStep + 1).toNat).length + 1 ≤ 20 then
        s.history.take (s.historyStep + 1).toNat ++ [s.canvas]
      else (s.history.take (s.historyStep + 1).toNat ++ [s.canvas]).drop 1) ∧
    (saveHistory s).historyStep = ((saveHistory s).history.length : Int) - 1 ∧
    (saveHistory s).history.length ≤ 20 :=
  ⟨saveHistory_history s h1, saveHistory_historyStep s, saveHistory_length_le s h1 h2⟩

/-- A full history of 20 single-operation snapshots with the cursor at the
end, used to exercise the eviction path of `saveHistory`. -/
def fullHistoryState : AppState :=
  { initialState with
    history := List.replicate 20 [DrawOp.text "x" 0 0 4 "#8b5cf6"],
    historyStep := 19,
    canvas := [DrawOp.text "y" 1 1 4 "#8b5cf6"] }

theorem saveHistory_spec_witness :
    (saveHistory fullHistoryState).history.length ≤ 20 ∧
    (saveHistory fullHistoryState).historyStep
      = ((saveHistory fullHistoryState).history.length : Int) - 1 := by
  have h := saveHistory_spec fullHistoryState (by decide) (by decide)
  exact ⟨h.2.2, h.2.1⟩

/-! ### C2 -/

/-- C2: with a cursor in the valid range, undo from a positive cursor
decrements it and repaints the canvas exactly from the stored snapshot at
the new cursor; undo from cursor 0 moves to -1 and clears the canvas; undo
at -1 is a no-op; redo below the last index increments the cursor and
repaints exactly from the snapshot at the new cursor; redo at the last
index is a no-op.  Since the repaint replaces the raster wholesale, no
blending with prior canvas contents occurs. -/
theorem undo_redo_spec (s : AppState) (h1 : -1 ≤ s.historyStep)
    (h2 : s.historyStep ≤ (s.history.length : Int) - 1) :
    (0 < s.historyStep →
      (handleUndo s).history = s.history ∧
      (handleUndo s).historyStep = s.historyStep - 1 ∧
      s.history[(s.historyStep - 1).toNat]? = some (handleUndo s).canvas) ∧
    (s.historyStep = 0 → handleUndo s = { s with historyStep := -1, canvas := [] }) ∧
    (s.historyStep = -1 → handleUndo s = s) ∧
    (s.historyStep < (s.history.length : Int) - 1 →
      (handleRedo s).history = s.history ∧
      (handleRedo s).historyStep = s.historyStep + 1 ∧
      s.history[(s.historyStep + 1).toNat]? = some (handleRedo s).canvas) ∧
    (s.historyStep = (s.history.length : Int) - 1 → handleRedo s = s) := by
  refine ⟨?_, ?_, ?_, ?_, ?_⟩
  · intro hpos
    have hidx : (s.historyStep - 1).toNat < s.history.length := by omega
    have hsome : s.history[(s.historyStep - 1).toNat]?
        = some (s.history[(s.historyStep - 1).toNat]) :=
      List.getElem?_eq_getElem hidx
    simp only [handleUndo, if_pos hpos, hsome]
    exact ⟨trivial, trivial, trivial⟩
  · intro h0
    simp [handleUndo, h0]
  · intro hneg
    simp [handleUndo, hneg]
  · intro hlt
    have hidx : (s.historyStep + 1).toNat < s.history.length := by omega
    have hsome : s.history[(s.historyStep + 1).toNat]?
        = some (s.history[(s.historyStep + 1).toNat]) :=
      List.getElem?_eq_getElem hidx
    simp only [handleRedo, if_pos hlt, hsome]
    exact ⟨trivial, trivial, trivial⟩
  · intro hend
    simp [handleRedo, hend]

/-- A three-snapshot history with the cursor in the middle, exercising both
the undo and the redo repaint paths. -/
def midHistoryState : AppState :=
  { initialState with
    history := [[DrawOp.text "a" 0 0 4 "#8b5cf6"],
                [DrawOp.text "b" 0 0 4 "#8b5cf6"],
                [DrawOp.text "c" 0 0 4 "#8b5cf6"]],
    historyStep := 1,
    canvas := [DrawOp.text "b" 0 0 4 "#8b5cf6"] }

theorem undo_redo_spec_witness :
    midHistoryState.history[(0 : Nat)]? = some (handleUndo midHistoryState).canvas ∧
    midHistoryState.history[(2 : Nat)]? = some (handleRedo midHistoryState).canvas := by
  have h := undo_redo_spec midHistoryState (by decide) (by decide)
  exact ⟨(h.1 (by decide)).2.2, ((h.2.2.2.1) (by decide)).2.2⟩

/-! ### C3 -/

/-- One commit as performed by a drawing session or text commit: the session
leaves the canvas holding raster `d`, and `saveHistory` then snapshots it. -/
def commitDraw (d : Raster) (s : AppState) : AppState :=
  saveHistory { s with canvas := d }

/-- A sequence of commits, applied left to right. -/
def commitAll (ds : List Raster) (s : AppState) : AppState :=
  ds.foldl (fun t d => commitDraw d t) s

/-- The annotation state reached while walking a fixed history `ds` with the
cursor at `j`: below index 0 the canvas is clear, otherwise it shows the
snapshot at the cursor. -/
def midState (ds : List Raster) (j : Int) : AppState :=
  { initialState with
    history := ds
    historyStep := j
    canvas := if j < 0 then [] else ds.getD j.toNat [] }

lemma commitAll_append (ds : List Raster) (d : Raster) (s : AppState) :
    commitAll (ds ++ [d]) s = commitDraw d (commitAll ds s) := by
  simp [commitAll, List.foldl_append]

lemma commitAll_eq_mid (ds : List Raster) (h : ds.length ≤ 20) :
    commitAll ds initialState = midState ds ((ds.length : Int) - 1) := by
  induction ds using List.reverseRecOn with
  | nil => decide
  | append_singleton l a ih =>
      simp only [List.length_append, List.length_cons, List.length_nil] at h
      have hl : l.length ≤ 20 := by omega
      rw [commitAll_append, ih hl]
      have h0 : (0 : Int) ≤ (l.length : Int) - 1 + 1 := by omega
      have htoNat : ((l.length : Int) - 1 + 1).toNat = l.length := by omega
      have hno : ¬ 20 < (l ++ [a]).length := by simp; omega
      simp only [commitDraw, saveHistory, midState, jsSlice, if_pos h0, htoNat,
        List.take_length, AppState.mk.injEq]
      and_intros <;>
        first
          | trivial
          | rw [if_neg hno]
          | (have hix : ((l ++ [a]).length : Int) - 1 = (l.length : Int) := by simp
             rw [hix, if_neg (show ¬ ((l.length : Int) < 0) by omega)]
             have hix2 : ((l.length : Int)).toNat = l.length := by omega
             rw [hix2]
             simp [List.getD, List.getElem?_concat_length])


lemma handleUndo_mid (ds : List Raster) (j : Int) (h0 : 0 ≤ j)
    (h1 : j ≤ (ds.length : Int) - 1) :
    handleUndo (midState ds j) = midState ds (j - 1) := by
  rcases eq_or_lt_of_le h0 with h | hpos
  · rw [← h]
    simp [handleUndo, midState]
  · have hidx : (j - 1).toNat < ds.length := by omega
    have hsome : ds[(j - 1).toNat]? = some (ds[(j - 1).toNat]) :=
      List.getElem?_eq_getElem hidx
    simp only [handleUndo, midState, if_pos hpos, hsome]
    simp only [AppState.mk.injEq]
    and_intros <;>
      first
        | trivial
        | (rw [if_neg (show ¬ (j - 1 < 0) by omega)]
           have hb : j.toNat - 1 < ds.length := by omega
           simp [List.getD, List.getElem?_eq_getElem hidx,
             List.getElem?_eq_getElem hb])

lemma handleRedo_mid (ds : List Raster) (j : Int) (h0 : -1 ≤ j)
    (h1 : j < (ds.length : Int) - 1) :
    handleRedo (midState ds j) = midState ds (j + 1) := by
  have hidx : (j + 1).toNat < ds.length := by omega
  have hsome : ds[(j + 1).toNat]? = some (ds[(j + 1).toNat]) :=
    List.getElem?_eq_getElem hidx
  simp only [handleRedo, midState, hsome]
  rw [if_pos h1]
  simp only [AppState.mk.injEq]
  and_intros <;>
    first
      | trivial
      | (rw [if_neg (show ¬ (j + 1 < 0) by omega)]
         simp [List.getD, hsome])

lemma handleUndo_iter_mid (ds : List Raster) (k : Nat) :
    ∀ j : Int, (k : Int) ≤ j + 1 → j ≤ (ds.length : Int) - 1 →
      handleUndo^[k] (midState ds j) = midState ds (j - k) := by
  induction k with
  | zero => intro j _ _; simp
  | succ k ih =>
      intro j hk hj
      rw [Function.iterate_succ_apply]
      rw [handleUndo_mid ds j (by push_cast at hk; omega) hj]
      rw [ih (j - 1) (by push_cast at hk ⊢; omega) (by omega)]
      congr 1
      push_cast
      ring

lemma handleRedo_iter_mid (ds : List Raster) (k : Nat) :
    ∀ j : Int, -1 ≤ j → j + k ≤ (ds.length : Int) - 1 →
      handleRedo^[k] (midState ds j) = midState ds (j + k) := by
  induction k with
  | zero => intro j _ _; simp
  | succ k ih =>
      intro j h0 hk
      rw [Function.iterate_succ_apply]
      rw [handleRedo_mid ds j h0 (by push_cast at hk; omega)]
      rw [ih (j + 1) (by omega) (by push_cast at hk ⊢; omega)]
      congr 1
      push_cast
      ring

/-- C3: starting from the initial state, after a sequence of at most 20
commits, undoing that many times and then redoing that many times restores
the entire annotation state — in particular the canvas raster and the
cursor — exactly as it was immediately after the last commit. -/
theorem undoN_redoN_roundtrip (ds : List Raster) (h : ds.length ≤ 20) :
    handleRedo^[ds.length] (handleUndo^[ds.length] (commitAll ds initialState)) =
      commitAll ds initialState := by
  rw [commitAll_eq_mid ds h]
  rw [handleUndo_iter_mid ds ds.length ((ds.length : Int) - 1) (by omega) (by omega)]
  have he : ((ds.length : Int) - 1 - (ds.length : Nat)) = -1 := by omega
  rw [he]
  rw [handleRedo_iter_mid ds ds.length (-1) (by omega) (by omega)]
  congr 1

/-- Two concrete commits used to instantiate the round-trip theorem. -/
def twoCommits : List Raster :=
  [[DrawOp.text "a" 0 0 4 "#8b5cf6"],
   [DrawOp.text "a" 0 0 4 "#8b5cf6", DrawOp.text "b" 3 4 4 "#8b5cf6"]]

theorem undoN_redoN_roundtrip_witness :
    handleRedo^[twoCommits.length]
        (handleUndo^[twoCommits.length] (commitAll twoCommits initialState)) =
      commitAll twoCommits initialState :=
  undoN_redoN_roundtrip twoCommits (by decide)

/-! ### C10 -/

lemma handleUndo_history (s : AppState) : (handleUndo s).history = s.history := by
  unfold handleUndo
  split_ifs <;>
    first
      | rfl
      | (rcases hm : s.history[(s.historyStep - 1).toNat]? with _ | d <;> rfl)

lemma handleUndo_historyStep (s : AppState) :
    (handleUndo s).historyStep =
      if 0 < s.historyStep then s.historyStep - 1
      else if s.historyStep = 0 then -1 else s.historyStep := by
  unfold handleUndo
  split_ifs <;>
    first
      | rfl
      | (rcases hm : s.history[(s.historyStep - 1).toNat]? with _ | d <;> rfl)

lemma handleRedo_history (s : AppState) : (handleRedo s).history = s.history := by
  unfold handleRedo
  split_ifs <;>
    first
      | rfl
      | (rcases hm : s.history[(s.historyStep + 1).toNat]? with _ | d <;> rfl)

lemma handleRedo_historyStep (s : AppState) :
    (handleRedo s).historyStep =
      if s.historyStep < (s.history.length : Int) - 1 then s.historyStep + 1
      else s.historyStep := by
  unfold handleRedo
  split_ifs <;>
    first
      | rfl
      | (rcases hm : s.history[(s.historyStep + 1).toNat]? with _ | d <;> rfl)

lemma handleDeleteLayer_layers (id : String) (s : AppState) :
    (handleDeleteLayer id s).layers = s.layers.filter (fun l => l.id ≠ id) := by
  unfold handleDeleteLayer
  split_ifs <;> rfl

lemma handleDeleteLayer_history (id : String) (s : AppState) :
    (handleDeleteLayer id s).history =
      if id = "annotations-layer" then [] else s.history := by
  unfold handleDeleteLayer
  split_ifs <;> rfl

lemma handleDeleteLayer_historyStep (id : String) (s : AppState) :
    (handleDeleteLayer id s).historyStep =
      if id = "annotations-layer" then -1 else s.historyStep := by
  unfold handleDeleteLayer
  split_ifs <;> rfl

lemma handleDeleteLayer_canvas (id : String) (s : AppState) :
    (handleDeleteLayer id s).canvas =
      if id = "annotations-layer" then [] else s.canvas := by
  unfold handleDeleteLayer
  split_ifs <;> rfl

/-- The well-formedness invariant of the history engine: the cursor sits
between -1 and the last index, and the history is bounded by 20 entries. -/
def historyInv (s : AppState) : Prop :=
  -1 ≤ s.historyStep ∧ s.historyStep ≤ (s.history.length : Int) - 1 ∧
    s.history.length ≤ 20

instance (s : AppState) : Decidable (historyInv s) := by
  unfold historyInv
  infer_instance

/-- C10: the initial state satisfies the history invariant, and every
history-touching operation — a commit through `saveHistory`, `handleUndo`,
`handleRedo`, and `handleDeleteLayer` of any layer — preserves it; whenever
the cursor is nonnegative it is a valid index into the history. -/
theorem historyInv_preserved :
    historyInv initialState ∧
    ∀ s : AppState, historyInv s →
      historyInv (saveHistory s) ∧
      historyInv (handleUndo s) ∧
      historyInv (handleRedo s) ∧
      (∀ id : String, historyInv (handleDeleteLayer id s)) ∧
      (0 ≤ s.historyStep → s.historyStep.toNat < s.history.length) := by
  constructor
  · exact ⟨by decide, by decide, by decide⟩
  intro s hs
  obtain ⟨hs1, hs2, hs3⟩ := hs
  refine ⟨?_, ?_, ?_, ?_, ?_⟩
  · refine ⟨?_, ?_, saveHistory_length_le s hs1 hs3⟩
    · rw [saveHistory_historyStep]
      have h1 : 1 ≤ (saveHistory s).history.length := by
        rw [saveHistory_history s hs1]
        split_ifs with hcase
        · simp
        · have hmin : (s.history.take (s.historyStep + 1).toNat).length
              = min (s.historyStep + 1).toNat s.history.length :=
            List.length_take _ _
          simp only [List.length_drop, List.length_append, List.length_cons,
            List.length_nil]
          omega
      omega
    · rw [saveHistory_historyStep]
  · unfold historyInv
    rw [handleUndo_history, handleUndo_historyStep]
    split_ifs <;> omega
  · unfold historyInv
    rw [handleRedo_history, handleRedo_historyStep]
    split_ifs <;> omega
  · intro id
    unfold historyInv
    rw [handleDeleteLayer_history, handleDeleteLayer_historyStep]
    split_ifs
    · exact ⟨le_refl _, by simp, by simp⟩
    · exact ⟨hs1, hs2, hs3⟩
  · intro hpos
    omega

theorem historyInv_preserved_witness :
    historyInv (saveHistory initialState) ∧ historyInv (handleUndo initialState) := by
  have h := historyInv_preserved
  have h2 := h.2 initialState h.1
  exact ⟨h2.1, h2.2.1⟩

/-! ### C7 -/

/-- C7: deleting the layer with id "annotations-layer" removes it from the
layer list, resets the history to the empty sequence with cursor -1, and
clears the overlay canvas; deleting a layer with any other id leaves the
history, the cursor, and the canvas untouched. -/
theorem deleteLayer_spec (s : AppState) :
    ((handleDeleteLayer "annotations-layer" s).layers
        = s.layers.filter (fun l => l.id ≠ "annotations-layer") ∧
     (∀ l ∈ (handleDeleteLayer "annotations-layer" s).layers,
        l.id ≠ "annotations-layer") ∧
     (handleDeleteLayer "annotations-layer" s).history = [] ∧
     (handleDeleteLayer "annotations-layer" s).historyStep = -1 ∧
     (handleDeleteLayer "annotations-layer" s).canvas = []) ∧
    (∀ id : String, id ≠ "annotations-layer" →
     (handleDeleteLayer id s).history = s.history ∧
     (handleDeleteLayer id s).historyStep = s.historyStep ∧
     (handleDeleteLayer id s).canvas = s.canvas) := by
  constructor
  · refine ⟨handleDeleteLayer_layers _ s, ?_,
      by rw [handleDeleteLayer_history]; simp,
      by rw [handleDeleteLayer_historyStep]; simp,
      by rw [handleDeleteLayer_canvas]; simp⟩
    intro l hl
    rw [handleDeleteLayer_layers] at hl
    exact of_decide_eq_true (List.mem_filter.mp hl).2
  · intro id hid
    exact ⟨by rw [handleDeleteLayer_history]; simp [hid],
      by rw [handleDeleteLayer_historyStep]; simp [hid],
      by rw [handleDeleteLayer_canvas]; simp [hid]⟩

theorem deleteLayer_spec_witness :
    (handleDeleteLayer "img1" initialState).history = initialState.history ∧
    (handleDeleteLayer "annotations-layer" initialState).historyStep = -1 := by
  have h := deleteLayer_spec initialState
  exact ⟨(h.2 "img1" (by decide)).1, h.1.2.2.2.1⟩

/-! ### Field lemmas for ensureAnnotationLayer and commitText -/

lemma ensureAnnotationLayer_annotationTool (s : AppState) :
    (ensureAnnotationLayer s).annotationTool = s.annotationTool := by
  unfold ensureAnnotationLayer
  cases h : s.layers.find? (fun l => l.id == "annotations-layer") with
  | none => rfl
  | some e =>
      dsimp only
      try split_ifs <;> rfl

lemma ensureAnnotationLayer_canvas (s : AppState) :
    (ensureAnnotationLayer s).canvas = s.canvas := by
  unfold ensureAnnotationLayer
  cases h : s.layers.find? (fun l => l.id == "annotations-layer") with
  | none => rfl
  | some e =>
      dsimp only
      try split_ifs <;> rfl

lemma ensureAnnotationLayer_history (s : AppState) :
    (ensureAnnotationLayer s).history = s.history := by
  unfold ensureAnnotationLayer
  cases h : s.layers.find? (fun l => l.id == "annotations-layer") with
  | none => rfl
  | some e =>
      dsimp only
      try split_ifs <;> rfl

lemma ensureAnnotationLayer_historyStep (s : AppState) :
    (ensureAnnotationLayer s).historyStep = s.historyStep := by
  unfold ensureAnnotationLayer
  cases h : s.layers.find? (fun l => l.id == "annotations-layer") with
  | none => rfl
  | some e =>
      dsimp only
      try split_ifs <;> rfl

lemma commitText_annotationTool (s : AppState) :
    (commitText s).annotationTool = s.annotationTool := by
  unfold commitText
  dsimp only
  split_ifs <;> rfl

lemma commitText_closes (s : AppState) (h : s.textInput.visible = true) :
    (commitText s).textInput.visible = false := by
  unfold commitText
  rw [if_neg (by simp [h])]
  dsimp only
  split_ifs <;> rfl

/-! ### C6 -/

set_option maxHeartbeats 1000000 in
/-- C6: committing a visible text edit whose buffer is empty or whitespace
only closes the edit session and changes nothing else — no canvas paint and
no history commit; committing a non-whitespace buffer paints the text once
onto the overlay, appends exactly one new snapshot of the painted canvas to
the truncated history (evicting the oldest entry on overflow), points the
cursor at the last index, and closes the session with an emptied buffer. -/
theorem commitText_spec (s : AppState) (hvis : s.textInput.visible = true)
    (h1 : -1 ≤ s.historyStep) :
    (s.textValue.data.all Char.isWhitespace = true →
      commitText s = { s with textInput := { s.textInput with visible := false } }) ∧
    (s.textValue.data.all Char.isWhitespace = false →
      (commitText s).canvas = s.canvas ++
        [DrawOp.text s.textValue s.textInput.x s.textInput.y s.brushSize s.brushColor] ∧
      (commitText s).history =
        (if (s.history.take (s.historyStep + 1).toNat).length + 1 ≤ 20 then
          s.history.take (s.historyStep + 1).toNat ++ [s.canvas ++
            [DrawOp.text s.textValue s.textInput.x s.textInput.y s.brushSize s.brushColor]]
        else (s.history.take (s.historyStep + 1).toNat ++ [s.canvas ++
            [DrawOp.text s.textValue s.textInput.x s.textInput.y s.brushSize s.brushColor]]).drop 1) ∧
      (commitText s).historyStep = ((commitText s).history.length : Int) - 1 ∧
      (commitText s).textInput.visible = false ∧
      (commitText s).textValue = "") := by
  constructor
  · intro hw
    unfold commitText
    dsimp only
    rw [if_neg (by simp [hvis]), if_pos hw]
  · intro hw
    have hne : ¬ (s.textValue.data.all Char.isWhitespace = true) := by simp [hw]
    unfold commitText
    dsimp only
    rw [if_neg (by simp [hvis]), if_neg hne]
    refine ⟨rfl, ?_, ?_, rfl, rfl⟩
    · exact saveHistory_history _ h1
    · exact saveHistory_historyStep _

/-- A pending non-whitespace text edit over the initial state. -/
def textPendingState : AppState :=
  { initialState with textInput := ⟨1, 2, true⟩, textValue := "hi" }

theorem commitText_spec_witness :
    (commitText textPendingState).canvas = textPendingState.canvas ++
      [DrawOp.text textPendingState.textValue textPendingState.textInput.x
        textPendingState.textInput.y textPendingState.brushSize
        textPendingState.brushColor] ∧
    (commitText textPendingState).textInput.visible = false := by
  have h := commitText_spec textPendingState (by decide) (by decide)
  have h2 := h.2 (by decide)
  exact ⟨h2.1, h2.2.2.2.1⟩

/-! ### C4 -/

/-- A pending text edit with the text tool active: buffer "hi", anchored at
(1, 2), over the initial state. -/
def textToolPendingState : AppState :=
  { initialState with
    annotationTool := Tool.text,
    textInput := ⟨1, 2, true⟩, textValue := "hi" }

/-- C4 counterexample: with the text tool active and an uncommitted text
edit pending, a press at (5, 5) renders the pending text onto the overlay
(the canvas changes) and does not open a fresh text-edit session (the text
input ends up hidden), contradicting the claim that the press discards the
pending text without rendering and opens a fresh edit at the press point. -/
theorem startDrawing_pendingText_cex :
    (startDrawing 5 5 textToolPendingState).canvas ≠ textToolPendingState.canvas ∧
    (startDrawing 5 5 textToolPendingState).textInput.visible = false := by
  decide

/-- C4 (amended): a press while a text edit is pending always commits the
pending edit first (rendering a non-empty buffer); if the active tool is the
text tool the press then does nothing further — no session and no fresh
text edit opens on that press; with any other tool the drawing session then
begins from the committed state.  Only a press with the text tool and no
pending edit opens a fresh empty text-edit session anchored at the press
point, leaving the canvas and history untouched. -/
theorem startDrawing_pendingText_spec (x y : ℚ) (s : AppState)
    (hc : s.annotationTool ≠ Tool.cursor) :
    (s.textInput.visible = true → s.annotationTool = Tool.text →
      startDrawing x y s = commitText s ∧
      (startDrawing x y s).textInput.visible = false) ∧
    (s.textInput.visible = true → s.annotationTool ≠ Tool.text →
      startDrawing x y s = beginSession x y (commitText s)) ∧
    (s.textInput.visible = false → s.annotationTool = Tool.text →
      (startDrawing x y s).textInput = ⟨x, y, true⟩ ∧
      (startDrawing x y s).textValue = "" ∧
      (startDrawing x y s).isDrawing = false ∧
      (startDrawing x y s).canvas = s.canvas ∧
      (startDrawing x y s).history = s.history ∧
      (startDrawing x y s).historyStep = s.historyStep) := by
  refine ⟨?_, ?_, ?_⟩
  · intro hvis htool
    have htool2 : (commitText s).annotationTool = Tool.text := by
      rw [commitText_annotationTool]; exact htool
    have heq : startDrawing x y s = commitText s := by
      unfold startDrawing
      rw [if_neg hc, if_pos hvis, if_pos htool2]
    exact ⟨heq, by rw [heq]; exact commitText_closes s hvis⟩
  · intro hvis htool
    have htool2 : ¬ (commitText s).annotationTool = Tool.text := by
      rw [commitText_annotationTool]; exact htool
    unfold startDrawing
    rw [if_neg hc, if_pos hvis, if_neg htool2]
  · intro hvis htool
    have hnvis : ¬ (s.textInput.visible = true) := by simp [hvis]
    have heq : startDrawing x y s =
        { ensureAnnotationLayer s with
          isDrawing := false, startPos := some (x, y),
          textValue := "", textInput := ⟨x, y, true⟩ } := by
      unfold startDrawing beginSession
      rw [if_neg hc, if_neg hnvis, if_pos htool]
    rw [heq]
    exact ⟨rfl, rfl, rfl, ensureAnnotationLayer_canvas s,
      ensureAnnotationLayer_history s, ensureAnnotationLayer_historyStep s⟩

theorem startDrawing_pendingText_spec_witness :
    startDrawing 5 5 textToolPendingState = commitText textToolPendingState := by
  have h := startDrawing_pendingText_spec 5 5 textToolPendingState (by decide)
  exact (h.1 (by decide) (by decide)).1

/-! ### C5 -/

/-- The base-layer fallback as the claim words it: the first visible
non-overlay layer in the list (regardless of its type). -/
def claimedFallbackBase (s : AppState) : Option Layer :=
  s.layers.find? (fun l => (l.id != "annotations-layer") && l.visible)

/-- A visible, non-overlay layer of segment type (as produced by the magic
segmentation tool). -/
def segResultLayer : Layer :=
  { id := "seg1", type := LayerType.segment, name := "Segment: subject",
    url := "u", visible := true, opacity := 1 }

/-- A state whose only layer is a visible non-overlay segment layer. -/
def segOnlyState : AppState :=
  { initialState with layers := [segResultLayer] }

/-- C5 counterexample: with a single visible non-overlay segment-type layer
and no active selection, the claim's fallback (first visible non-overlay
layer) picks that layer, but the export reports the error toast and
produces no output — the code filters by type, not by overlay identity. -/
theorem handleExport_fallback_cex :
    claimedFallbackBase segOnlyState = some segResultLayer ∧
    handleExport segOnlyState = ExportResult.error "No valid image layer to export" := by
  decide

/-- C5 (amended): export chooses as its base layer the layer matching the
active id when that layer exists and is not the annotation overlay;
otherwise the first visible layer whose type is not segment; if neither
exists the export reports an error notification and produces no output. -/
theorem handleExport_base_spec (s : AppState) :
    (∀ a : String, s.activeLayerId = some a → a ≠ "annotations-layer" →
      (∃ l ∈ s.layers, l.id = a) →
      ∃ l, exportBaseLayer s = some l ∧ l.id = a) ∧
    ((∀ l ∈ s.layers, s.activeLayerId = some l.id → l.id = "annotations-layer") →
      exportBaseLayer s = s.layers.find? (fun l =>
        (l.type != LayerType.segment) && l.visible)) ∧
    ((∀ l ∈ s.layers, s.activeLayerId = some l.id → l.id = "annotations-layer") →
     (∀ l ∈ s.layers, l.visible = true → l.type = LayerType.segment) →
      handleExport s = ExportResult.error "No valid image layer to export") := by
  refine ⟨?_, ?_, ?_⟩
  · intro a hact hne hex
    have hsome : (s.layers.find? (fun l =>
        (s.activeLayerId == some l.id) && (l.id != "annotations-layer"))).isSome := by
      rw [List.find?_isSome]
      obtain ⟨l, hl, hid⟩ := hex
      refine ⟨l, hl, ?_⟩
      simp [hact, hid, hne]
    obtain ⟨l, hl⟩ := Option.isSome_iff_exists.mp hsome
    have hp := List.find?_some hl
    have hid : l.id = a := by
      have h1 : (s.activeLayerId == some l.id) = true := by
        cases h2 : (s.activeLayerId == some l.id) <;> simp [h2] at hp ⊢
      rw [hact] at h1
      have := of_decide_eq_true h1
      simpa using this.symm
    refine ⟨l, ?_, hid⟩
    unfold exportBaseLayer
    rw [hl]
  · intro hnone
    have hfind : s.layers.find? (fun l =>
        (s.activeLayerId == some l.id) && (l.id != "annotations-layer")) = none := by
      rw [List.find?_eq_none]
      intro l hl
      simp only [Bool.and_eq_true, bne_iff_ne, ne_eq, beq_iff_eq, not_and]
      intro hact
      exact fun hne => hne (hnone l hl hact)
    unfold exportBaseLayer
    rw [hfind]
  · intro hnone hseg
    have hfind : s.layers.find? (fun l =>
        (s.activeLayerId == some l.id) && (l.id != "annotations-layer")) = none := by
      rw [List.find?_eq_none]
      intro l hl
      simp only [Bool.and_eq_true, bne_iff_ne, ne_eq, beq_iff_eq, not_and]
      intro hact
      exact fun hne => hne (hnone l hl hact)
    have hfind2 : s.layers.find? (fun l =>
        (l.type != LayerType.segment) && l.visible) = none := by
      rw [List.find?_eq_none]
      intro l hl
      simp only [Bool.and_eq_true, bne_iff_ne, ne_eq, not_and]
      intro hty
      intro hv
      exact hty (hseg l hl hv)
    unfold handleExport exportBaseLayer
    rw [hfind, hfind2]

/-- A state with one visible image layer that is also the active layer. -/
def imgActiveState : AppState :=
  { initialState with
    layers := [{ id := "img1", type := LayerType.image, name := "pic",
                 url := "u", visible := true, opacity := 1 }],
    activeLayerId := some "img1" }

theorem handleExport_base_spec_witness :
    ∃ l, exportBaseLayer imgActiveState = some l ∧ l.id = "img1" := by
  have h := (handleExport_base_spec imgActiveState).1 "img1" rfl (by decide)
    ⟨{ id := "img1", type := LayerType.image, name := "pic",
       url := "u", visible := true, opacity := 1 }, by decide, rfl⟩
  exact h

/-! ### C9 -/

/-- C9 counterexample: a source image carrying a `data:image/gif;base64,`
header is passed through unchanged — the submitted payload still begins
with a data-URI prefix, so the payload is not always bare base64. -/
theorem cleanBase64_cex :
    cleanBase64 "data:image/gif;base64,QUJD" = "data:image/gif;base64,QUJD" ∧
    "data:".data.isPrefixOf ("data:image/gif;base64,QUJD").data = true := by
  decide

/-- C9 (amended): only a leading `data:image/png;base64,`,
`data:image/jpeg;base64,` or `data:image/webp;base64,` header is stripped
(the payload submitted is then the remainder of the string); any other
source string, including other data-URI headers, is submitted unchanged. -/
theorem cleanBase64_spec (s : String) :
    (∃ p ∈ dataUriPrefixes, p.data.isPrefixOf s.data = true ∧
      cleanBase64 s = ⟨s.data.drop p.data.length⟩) ∨
    ((∀ p ∈ dataUriPrefixes, p.data.isPrefixOf s.data = false) ∧
      cleanBase64 s = s) := by
  cases hf : dataUriPrefixes.find? (fun p => p.data.isPrefixOf s.data) with
  | some p =>
      left
      have hp0 := List.find?_some hf
      have hp : p.data.isPrefixOf s.data = true := hp0
      refine ⟨p, List.mem_of_find?_eq_some hf, hp, ?_⟩
      unfold cleanBase64
      rw [hf]
  | none =>
      right
      refine ⟨?_, ?_⟩
      · intro p hp
        have h : ¬ (p.data.isPrefixOf s.data = true) :=
          List.find?_eq_none.mp hf p hp
        exact Bool.eq_false_iff.mpr h
      · unfold cleanBase64
        rw [hf]

/-! ### C8 -/

/-- C8: the arrow renderer strokes the straight shaft from the origin to
the endpoint, and places the two back vertices of the filled head triangle
at Euclidean distance 15 + brushSize from the endpoint, offset by -30° and
+30° around the shaft angle (the `atan2` of the shaft vector, whose cosine
and sine are the normalized shaft components whenever the shaft is
non-degenerate); in particular the head length at brush size 4 is 19. -/
theorem drawArrow_spec (s fx fy tx ty : ℝ) (hs : 0 ≤ s) :
    (drawArrow s fx fy tx ty).shaft = ((fx, fy), (tx, ty)) ∧
    eucDist (drawArrow s fx fy tx ty).head1 (tx, ty) = 15 + s ∧
    eucDist (drawArrow s fx fy tx ty).head2 (tx, ty) = 15 + s ∧
    (drawArrow s fx fy tx ty).head1 =
      (tx - (15 + s) * Real.cos (Complex.arg ⟨tx - fx, ty - fy⟩ - Real.pi / 6),
       ty - (15 + s) * Real.sin (Complex.arg ⟨tx - fx, ty - fy⟩ - Real.pi / 6)) ∧
    (drawArrow s fx fy tx ty).head2 =
      (tx - (15 + s) * Real.cos (Complex.arg ⟨tx - fx, ty - fy⟩ + Real.pi / 6),
       ty - (15 + s) * Real.sin (Complex.arg ⟨tx - fx, ty - fy⟩ + Real.pi / 6)) ∧
    ((⟨tx - fx, ty - fy⟩ : ℂ) ≠ 0 →
      Real.cos (Complex.arg ⟨tx - fx, ty - fy⟩)
          = (tx - fx) / Real.sqrt ((tx - fx) ^ 2 + (ty - fy) ^ 2) ∧
      Real.sin (Complex.arg ⟨tx - fx, ty - fy⟩)
          = (ty - fy) / Real.sqrt ((tx - fx) ^ 2 + (ty - fy) ^ 2)) ∧
    arrowHeadLength 4 = 19 := by
  have key : ∀ α : ℝ,
      eucDist (tx - (15 + s) * Real.cos α, ty - (15 + s) * Real.sin α) (tx, ty)
        = 15 + s := by
    intro α
    unfold eucDist
    have h1 : (tx - (15 + s) * Real.cos α - tx) ^ 2
        + (ty - (15 + s) * Real.sin α - ty) ^ 2 = (15 + s) ^ 2 := by
      linear_combination (15 + s) ^ 2 * Real.sin_sq_add_cos_sq α
    rw [h1, Real.sqrt_sq (by linarith)]
  have habs : Complex.abs ⟨tx - fx, ty - fy⟩
      = Real.sqrt ((tx - fx) ^ 2 + (ty - fy) ^ 2) := by
    rw [Complex.abs_apply, Complex.normSq_mk]
    ring_nf
  refine ⟨rfl, key _, key _, rfl, rfl, ?_, by norm_num [arrowHeadLength]⟩
  intro hz
  constructor
  · rw [Complex.cos_arg hz, habs]
  · rw [Complex.sin_arg, habs]

theorem drawArrow_spec_witness :
    eucDist (drawArrow 4 0 0 100 0).head1 (100, 0) = 19 ∧
    arrowHeadLength 4 = 19 := by
  have h := drawArrow_spec 4 0 0 100 0 (by norm_num)
  refine ⟨?_, h.2.2.2.2.2.2⟩
  rw [h.2.1]
  norm_num

end C4Studio
